import Mathlib

/-!
Shallow embedding of the Mataroa Telegram bot's interactive session engine
(`mataroa.py`) and proofs of the specification's testable properties.

Text is modelled as `List Char` (Python `str` code points), integers as
`Int`/`Nat`.  Each definition mirrors one Python function, keeping its name.
-/

/-- Python strings, as lists of code points. -/
abbrev Str := List Char

/-! ### Constants (module-level constants of `mataroa.py`) -/

/-- `DEFAULT_PREVIEW_LENGTH = 280` -/
def DEFAULT_PREVIEW_LENGTH : Int := 280

/-- `POSTS_PAGE_SIZE = 5` -/
def POSTS_PAGE_SIZE : Nat := 5

/-- `MAX_PREVIEW_CHARS = 3900` (safe cap below the Telegram 4096 limit). -/
def MAX_PREVIEW_CHARS : Int := 3900

/-- `ALLOWED_PREVIEW_LENGTHS = {140, 280, 500}` -/
def ALLOWED_PREVIEW_LENGTHS : List Int := [140, 280, 500]

/-! ### `mdv2` / `escape_markdown(version=2)`

`telegram.helpers.escape_markdown(text, version=2)` prefixes every character
of ``\_*[]()~`>#+-=|{}.!`` with a backslash.  We identify the specials by
code point to keep the source readable. -/

/-- The MarkdownV2 special characters, by code point. -/
def isSpecialMd (c : Char) : Bool :=
  c.toNat ∈ [92, 95, 42, 91, 93, 40, 41, 126, 96, 62, 35, 43, 45, 61, 124, 123, 125, 46, 33]

/-- `mdv2(s) = escape_markdown(s or "", version=2)`. -/
def mdv2 (s : Str) : Str :=
  s.flatMap (fun c => if isSpecialMd c then ['\\', c] else [c])

/-! ### `safe_truncate_md` -/

/-- Remove the trailing run of backslashes from a list
(the `while cut > 0 and s[cut-1] == "\\"` loop of `safe_truncate_md`). -/
def dropTrailingBackslashes (l : Str) : Str :=
  (l.reverse.dropWhile (fun c => c = '\\')).reverse

/-- `safe_truncate_md(s, max_len)`: truncate a MarkdownV2 string to
`max_len`, avoiding dangling escape backslashes. -/
def safe_truncate_md (s : Str) (max_len : Int) : Str :=
  if max_len ≤ 0 then []
  else if max_len = 1 then ['…']
  else if (s.length : Int) ≤ max_len then s
  else dropTrailingBackslashes (s.take (max_len - 1).toNat) ++ ['…']

/-! ### `get_effective_preview_length` -/

/-- A Python value stored in a settings dict: an `int`, or anything else. -/
inductive PyVal where
  | pyInt (n : Int)
  | pyOther
deriving DecidableEq

/-- Python `dict.get(key, default)` over an association list. -/
def dictGet (d : List (Str × PyVal)) (key : Str) (default : PyVal) : PyVal :=
  match d.find? (fun p => p.1 = key) with
  | some p => p.2
  | none => default

/-- The `UserData` dataclass, restricted to the fields the settings lookup
touches (`settings` as a Python dict). -/
structure UserDataS where
  api_key : Str
  settings : List (Str × PyVal)

/-- The `UserData(api_key="")` default: `settings` is built by the
dataclass `default_factory`, which includes `preview_length = 280`. -/
def defaultUserDataS : UserDataS :=
  { api_key := []
    settings := [("default_publish_mode".toList, PyVal.pyOther),
                 ("preview_length".toList, PyVal.pyInt DEFAULT_PREVIEW_LENGTH),
                 ("confirm_before_delete".toList, PyVal.pyOther)] }

/-- `get_effective_preview_length(user_id)`: the user's preview length if it
is an `int` in `ALLOWED_PREVIEW_LENGTHS`, else `DEFAULT_PREVIEW_LENGTH`.
`users_data` is the global user map, modelled as a lookup function. -/
def get_effective_preview_length (users_data : Nat → Option UserDataS) (user_id : Nat) : Int :=
  let u := (users_data user_id).getD defaultUserDataS
  let val := dictGet u.settings "preview_length".toList (PyVal.pyInt DEFAULT_PREVIEW_LENGTH)
  match val with
  | PyVal.pyInt n => if n ∈ ALLOWED_PREVIEW_LENGTHS then n else DEFAULT_PREVIEW_LENGTH
  | PyVal.pyOther => DEFAULT_PREVIEW_LENGTH

/-! ### Preview renderers -/

/-- `render_create_preview(title, body, published_at)`. -/
def render_create_preview (title body : Str) (published_at : Option Str) : Str :=
  let status : Str := if published_at = none then "Draft".toList else "Published".toList
  let title_s := mdv2 title
  let body_s := mdv2 body
  let header_pre : Str := ("*Preview Post:*\n\n" ++ "*Title:*\n").toList
  let header_post : Str := "\n\n*Body:*\n".toList
  let footer : Str := "\n\n*Status:*\n".toList ++ mdv2 status
  let body_allowed : Int := MAX_PREVIEW_CHARS -
    ((header_pre ++ title_s ++ header_post ++ body_s ++ footer).length : Int)
  if body_allowed < 0 then
    let title_allowed : Int := MAX_PREVIEW_CHARS -
      ((header_pre ++ header_post ++ footer).length : Int)
    let title_allowed := max 0 title_allowed
    let title_s2 := if title_allowed < (title_s.length : Int)
      then safe_truncate_md title_s title_allowed else title_s
    let body_allowed2 : Int := MAX_PREVIEW_CHARS -
      ((header_pre ++ title_s2 ++ header_post ++ footer).length : Int)
    let body_allowed2 := max 0 body_allowed2
    let body_s2 := safe_truncate_md body_s body_allowed2
    header_pre ++ title_s2 ++ header_post ++ body_s2 ++ footer
  else
    let max_body : Int := MAX_PREVIEW_CHARS -
      ((header_pre ++ title_s ++ header_post ++ footer).length : Int)
    let body_s2 := if max_body < (body_s.length : Int)
      then safe_truncate_md body_s (max 0 max_body) else body_s
    header_pre ++ title_s ++ header_post ++ body_s2 ++ footer

/-- `render_update_preview(title, body, published_at, current_slug,
suggested, slug_sync)`. -/
def render_update_preview (title body : Str) (published_at : Option Str)
    (current_slug suggested : Str) (slug_sync : Bool) : Str :=
  let status : Str := if published_at = none then "Draft".toList else "Published".toList
  let title_s := mdv2 title
  let body_s := mdv2 body
  let slug_line : Str := if current_slug = suggested then mdv2 current_slug
    else mdv2 current_slug ++ " → ".toList ++ mdv2 suggested
  let sync_state : Str := if slug_sync then "sync ON".toList else "sync OFF".toList
  let header_pre : Str := ("*Preview Updated Post:*\n\n" ++ "*Title:*\n").toList
  let header_post : Str := "\n\n*Body:*\n".toList
  let tail_pre : Str := "\n\n*Slug:*\n".toList
  let tail_mid : Str := " \\(".toList ++ mdv2 sync_state ++ "\\)".toList
  let tail_post : Str := "\n\n*Status:*\n".toList ++ mdv2 status
  let total_len : Int := ((header_pre ++ title_s ++ header_post ++ body_s ++
    tail_pre ++ slug_line ++ tail_mid ++ tail_post).length : Int)
  if MAX_PREVIEW_CHARS < total_len then
    -- 1) Shrink body
    let body_allowed : Int := MAX_PREVIEW_CHARS -
      ((header_pre ++ title_s ++ header_post ++ tail_pre ++ slug_line ++ tail_mid ++ tail_post).length : Int)
    let body_s2 := if body_allowed < 0 then [] else safe_truncate_md body_s body_allowed
    -- 2) Re-evaluate; shrink title if needed
    let total_len2 : Int := ((header_pre ++ title_s ++ header_post ++ body_s2 ++
      tail_pre ++ slug_line ++ tail_mid ++ tail_post).length : Int)
    let title_s2 := if MAX_PREVIEW_CHARS < total_len2 then
        let title_allowed : Int := MAX_PREVIEW_CHARS -
          ((header_pre ++ header_post ++ body_s2 ++ tail_pre ++ slug_line ++ tail_mid ++ tail_post).length : Int)
        let title_allowed := max 0 title_allowed
        if title_allowed < (title_s.length : Int) then safe_truncate_md title_s title_allowed
        else title_s
      else title_s
    -- 3) Re-evaluate; shrink slug line if still needed
    let total_len3 : Int := ((header_pre ++ title_s2 ++ header_post ++ body_s2 ++
      tail_pre ++ slug_line ++ tail_mid ++ tail_post).length : Int)
    let slug_line2 := if MAX_PREVIEW_CHARS < total_len3 then
        let slug_allowed : Int := MAX_PREVIEW_CHARS -
          ((header_pre ++ title_s2 ++ header_post ++ body_s2 ++ tail_pre ++ tail_mid ++ tail_post).length : Int)
        let slug_allowed := max 0 slug_allowed
        if slug_allowed < (slug_line.length : Int) then safe_truncate_md slug_line slug_allowed
        else slug_line
      else slug_line
    header_pre ++ title_s2 ++ header_post ++ body_s2 ++ tail_pre ++ slug_line2 ++ tail_mid ++ tail_post
  else
    header_pre ++ title_s ++ header_post ++ body_s ++ tail_pre ++ slug_line ++ tail_mid ++ tail_post

/-! ## Helper lemmas -/

theorem dropTrailingBackslashes_eq_rdropWhile (l : Str) :
    dropTrailingBackslashes l = List.rdropWhile (fun c => decide (c = '\\')) l := rfl

theorem length_dropTrailingBackslashes_le (l : Str) :
    (dropTrailingBackslashes l).length ≤ l.length := by
  rw [dropTrailingBackslashes_eq_rdropWhile]
  exact ( List.rdropWhile_prefix _ l).length_le

theorem getLast?_dropTrailingBackslashes (l : Str) (c : Char)
    (h : (dropTrailingBackslashes l).getLast? = some c) : c ≠ '\\' := by
  rw [dropTrailingBackslashes_eq_rdropWhile] at h
  have hne : List.rdropWhile (fun c => decide (c = '\\')) l ≠ [] := by
    intro hnil
    rw [hnil] at h
    simp at h
  have := List.rdropWhile_last_not (fun c => decide (c = '\\')) l hne
  rw [List.getLast?_eq_getLast _ hne] at h
  simp only [Option.some.injEq] at h
  subst h
  simpa using this

theorem dropTrailingBackslashes_isPrefix (l : Str) :
    dropTrailingBackslashes l <+: l := by
  rw [dropTrailingBackslashes_eq_rdropWhile]
  exact List.rdropWhile_prefix _ l

/-- Output of `safe_truncate_md` never exceeds `max max_len 0` characters. -/
theorem length_safe_truncate_md_le (s : Str) (m : Int) :
    ((safe_truncate_md s m).length : Int) ≤ max m 0 := by
  unfold safe_truncate_md
  split_ifs with h1 h2 h3
  · simp
  · simp [h2]
  · omega
  · have hd := length_dropTrailingBackslashes_le (s.take (m - 1).toNat)
    have ht : (s.take (m - 1).toNat).length ≤ (m - 1).toNat := by
      simp [List.length_take]
    simp only [List.length_append, List.length_cons, List.length_nil]
    omega

/-- **C3.** `safe_truncate_md` never produces output ending in a dangling
escape backslash: whenever it actually cuts `s` (the bound is at least 1 and
smaller than `s`), the result is a prefix of `s` with all trailing
backslashes removed, followed by the ellipsis marker — so the character
before the ellipsis is never a backslash. -/
theorem safe_truncate_md_no_dangling_escape (s : Str) (m : Int)
    (h1 : 1 ≤ m) (h2 : m < (s.length : Int)) :
    ∃ t, safe_truncate_md s m = t ++ ['…'] ∧ t <+: s ∧
      ∀ c, t.getLast? = some c → c ≠ '\\' := by
  unfold safe_truncate_md
  split_ifs with h3 h4 h5
  · omega
  · exact ⟨[], by simp, List.nil_prefix, by simp⟩
  · omega
  · refine ⟨dropTrailingBackslashes (s.take (m - 1).toNat), rfl, ?_, ?_⟩
    · exact (dropTrailingBackslashes_isPrefix _).trans ( List.take_prefix _ s)
    · exact getLast?_dropTrailingBackslashes _

/-- Closed-instance witness for `safe_truncate_md_no_dangling_escape`:
truncating `"ab\\cd"` to 4 characters cuts before the backslash. -/
theorem safe_truncate_md_no_dangling_escape_witness :
    (1 : Int) ≤ 4 ∧ (4 : Int) < ((['a', 'b', '\\', 'c', 'd'] : Str).length : Int) ∧
    ∃ t, safe_truncate_md ['a', 'b', '\\', 'c', 'd'] 4 = t ++ ['…'] ∧
      t <+: ['a', 'b', '\\', 'c', 'd'] ∧ ∀ c, t.getLast? = some c → c ≠ '\\' :=
  ⟨by norm_num, by norm_num,
    safe_truncate_md_no_dangling_escape ['a', 'b', '\\', 'c', 'd'] 4 (by norm_num) (by norm_num)⟩

/-- **C10.** `get_effective_preview_length` always returns a member of
`{140, 280, 500}`; whenever the user record is absent, the stored
`preview_length` key is missing, the stored value is not an `int`, or the
stored integer is outside the allowed set, it returns the default `280`. -/
theorem get_effective_preview_length_spec (users_data : Nat → Option UserDataS) (uid : Nat) :
    get_effective_preview_length users_data uid ∈ ALLOWED_PREVIEW_LENGTHS ∧
    (users_data uid = none →
      get_effective_preview_length users_data uid = DEFAULT_PREVIEW_LENGTH) ∧
    (∀ u, users_data uid = some u →
      u.settings.find? (fun p => p.1 = "preview_length".toList) = none →
      get_effective_preview_length users_data uid = DEFAULT_PREVIEW_LENGTH) ∧
    (∀ u, users_data uid = some u →
      dictGet u.settings "preview_length".toList (PyVal.pyInt DEFAULT_PREVIEW_LENGTH) = PyVal.pyOther →
      get_effective_preview_length users_data uid = DEFAULT_PREVIEW_LENGTH) ∧
    (∀ u n, users_data uid = some u →
      dictGet u.settings "preview_length".toList (PyVal.pyInt DEFAULT_PREVIEW_LENGTH) = PyVal.pyInt n →
      n ∉ ALLOWED_PREVIEW_LENGTHS →
      get_effective_preview_length users_data uid = DEFAULT_PREVIEW_LENGTH) := by
  have gepl_eq : ∀ (ud : Nat → Option UserDataS) (i : Nat),
      get_effective_preview_length ud i =
      match dictGet ((ud i).getD defaultUserDataS).settings "preview_length".toList
          (PyVal.pyInt DEFAULT_PREVIEW_LENGTH) with
      | PyVal.pyInt n => if n ∈ ALLOWED_PREVIEW_LENGTHS then n else DEFAULT_PREVIEW_LENGTH
      | PyVal.pyOther => DEFAULT_PREVIEW_LENGTH := fun _ _ => rfl
  refine ⟨?_, ?_, ?_, ?_, ?_⟩
  · rw [gepl_eq]
    rcases hval : dictGet ((users_data uid).getD defaultUserDataS).settings
        "preview_length".toList (PyVal.pyInt DEFAULT_PREVIEW_LENGTH) with n | _
    · simp only []
      split_ifs with h
      · exact h
      · decide
    · simp only []
      decide
  · intro h
    rw [gepl_eq, h]
    decide
  · intro u hu hfind
    rw [gepl_eq, hu]
    simp only [Option.getD_some]
    unfold dictGet
    rw [hfind]
    decide
  · intro u hu hval
    rw [gepl_eq, hu]
    simp only [Option.getD_some]
    rw [hval]
  · intro u n hu hval hn
    rw [gepl_eq, hu]
    simp only [Option.getD_some]
    rw [hval]
    simp [hn]

/-- Closed-instance witness for `get_effective_preview_length_spec`:
a store with no record for user 0 yields the default `280`, which is an
allowed length. -/
theorem get_effective_preview_length_spec_witness :
    get_effective_preview_length (fun _ => none) 0 = 280 ∧
    get_effective_preview_length (fun _ => none) 0 ∈ ALLOWED_PREVIEW_LENGTHS :=
  ⟨(get_effective_preview_length_spec (fun _ => none) 0).2.1 rfl,
   (get_effective_preview_length_spec (fun _ => none) 0).1⟩

set_option maxHeartbeats 1600000 in
/-- Length bound for `render_create_preview` (helper for the combined
preview-renderer theorem). -/
theorem render_create_preview_length_le (title body : Str) (pub : Option Str) :
    ((render_create_preview title body pub).length : Int) ≤ MAX_PREVIEW_CHARS := by
  have hfs : ((mdv2 (if pub = none then "Draft".toList else "Published".toList)).length : Int) ≤ 9 := by
    cases pub with
    | none => decide
    | some d => rw [if_neg (by simp)]; decide
  have hPl : (("*Preview Post:*\n\n" ++ "*Title:*\n").toList : Str).length = 26 := by decide
  have hHPl : ("\n\n*Body:*\n".toList : Str).length = 10 := by decide
  have hSTl : ("\n\n*Status:*\n".toList : Str).length = 12 := by decide
  simp only [render_create_preview]
  generalize hts : mdv2 title = ts
  generalize hbs : mdv2 body = bs
  generalize hfs2 : mdv2 (if pub = none then "Draft".toList else "Published".toList) = fs at hfs
  generalize hP : ("*Preview Post:*\n\n" ++ "*Title:*\n").toList = P at hPl
  generalize hHP : "\n\n*Body:*\n".toList = HP at hHPl
  generalize hST : "\n\n*Status:*\n".toList = ST at hSTl
  split_ifs with h1 h2
  · have hT2 := length_safe_truncate_md_le ts
      (max 0 (MAX_PREVIEW_CHARS - ((P ++ HP ++ (ST ++ fs)).length : Int)))
    have hB2 := length_safe_truncate_md_le bs
      (max 0 (MAX_PREVIEW_CHARS -
        ((P ++ safe_truncate_md ts
            (max 0 (MAX_PREVIEW_CHARS - ((P ++ HP ++ (ST ++ fs)).length : Int))) ++ HP ++
          (ST ++ fs)).length : Int)))
    simp only [List.length_append, MAX_PREVIEW_CHARS] at hT2 hB2 h1 h2 ⊢
    push_cast at hT2 hB2 h1 h2 ⊢
    omega
  · have hB2 := length_safe_truncate_md_le bs
      (max 0 (MAX_PREVIEW_CHARS - ((P ++ ts ++ HP ++ (ST ++ fs)).length : Int)))
    simp only [List.length_append, MAX_PREVIEW_CHARS] at hB2 h1 h2 ⊢
    push_cast at hB2 h1 h2 ⊢
    omega
  · have hB2 := length_safe_truncate_md_le bs
      (max 0 (MAX_PREVIEW_CHARS - ((P ++ ts ++ HP ++ (ST ++ fs)).length : Int)))
    simp only [List.length_append, MAX_PREVIEW_CHARS] at hB2 h1 ⊢
    push_cast at hB2 h1 ⊢
    omega
  · simp only [List.length_append, MAX_PREVIEW_CHARS] at h1 ⊢
    push_cast at h1 ⊢
    omega

set_option maxHeartbeats 1600000 in
/-- Length bound for `render_update_preview` (helper for the combined
preview-renderer theorem). -/
theorem render_update_preview_length_le (title body : Str) (pub : Option Str)
    (current_slug suggested : Str) (slug_sync : Bool) :
    ((render_update_preview title body pub current_slug suggested slug_sync).length : Int) ≤
      MAX_PREVIEW_CHARS := by
  have hfs : ((mdv2 (if pub = none then "Draft".toList else "Published".toList)).length : Int) ≤ 9 := by
    cases pub with
    | none => decide
    | some d => rw [if_neg (by simp)]; decide
  have hsyl : ((mdv2 (if slug_sync then "sync ON".toList else "sync OFF".toList)).length : Int) ≤ 8 := by
    cases slug_sync <;> decide
  have hPl : (("*Preview Updated Post:*\n\n" ++ "*Title:*\n").toList : Str).length = 34 := by decide
  have hHPl : ("\n\n*Body:*\n".toList : Str).length = 10 := by decide
  have hTPl : ("\n\n*Slug:*\n".toList : Str).length = 10 := by decide
  have hA1l : (" \\(".toList : Str).length = 3 := by decide
  have hA2l : ("\\)".toList : Str).length = 2 := by decide
  have hSTl : ("\n\n*Status:*\n".toList : Str).length = 12 := by decide
  simp only [render_update_preview]
  generalize hts : mdv2 title = ts
  generalize hbs : mdv2 body = bs
  generalize hsl : (if current_slug = suggested then mdv2 current_slug
    else mdv2 current_slug ++ " → ".toList ++ mdv2 suggested) = sl
  generalize hsy : mdv2 (if slug_sync then "sync ON".toList else "sync OFF".toList) = sync at hsyl
  generalize hfs2 : mdv2 (if pub = none then "Draft".toList else "Published".toList) = fs at hfs
  generalize hP : ("*Preview Updated Post:*\n\n" ++ "*Title:*\n").toList = P at hPl
  generalize hHP : "\n\n*Body:*\n".toList = HP at hHPl
  generalize hTP : "\n\n*Slug:*\n".toList = TP at hTPl
  generalize hA1 : " \\(".toList = A1 at hA1l
  generalize hA2 : "\\)".toList = A2 at hA2l
  generalize hST : "\n\n*Status:*\n".toList = ST at hSTl
  set BA : Int := MAX_PREVIEW_CHARS -
    ((P ++ ts ++ HP ++ TP ++ sl ++ (A1 ++ sync ++ A2) ++ (ST ++ fs)).length : Int) with hBA
  set B2 : Str := (if BA < 0 then ([] : Str) else safe_truncate_md bs BA) with hB2def
  have hB2 : (B2.length : Int) ≤ max 0 BA := by
    rw [hB2def]
    split_ifs with h
    · simp only [List.length_nil, Nat.cast_zero]
      omega
    · have := length_safe_truncate_md_le bs BA
      omega
  set TA : Int := max 0 (MAX_PREVIEW_CHARS -
    ((P ++ HP ++ B2 ++ TP ++ sl ++ (A1 ++ sync ++ A2) ++ (ST ++ fs)).length : Int)) with hTA
  set T2 : Str := (if MAX_PREVIEW_CHARS <
      ((P ++ ts ++ HP ++ B2 ++ TP ++ sl ++ (A1 ++ sync ++ A2) ++ (ST ++ fs)).length : Int) then
      (if TA < (ts.length : Int) then safe_truncate_md ts TA else ts)
    else ts) with hT2def
  have hT2 : (T2.length : Int) ≤ TA ∨
      (T2 = ts ∧ ((P ++ ts ++ HP ++ B2 ++ TP ++ sl ++ (A1 ++ sync ++ A2) ++ (ST ++ fs)).length : Int) ≤
        MAX_PREVIEW_CHARS) := by
    rw [hT2def]
    split_ifs with h h2
    · left
      have := length_safe_truncate_md_le ts TA
      omega
    · left
      omega
    · right
      exact ⟨rfl, by omega⟩
  set SA : Int := max 0 (MAX_PREVIEW_CHARS -
    ((P ++ T2 ++ HP ++ B2 ++ TP ++ (A1 ++ sync ++ A2) ++ (ST ++ fs)).length : Int)) with hSA
  set S2 : Str := (if MAX_PREVIEW_CHARS <
      ((P ++ T2 ++ HP ++ B2 ++ TP ++ sl ++ (A1 ++ sync ++ A2) ++ (ST ++ fs)).length : Int) then
      (if SA < (sl.length : Int) then safe_truncate_md sl SA else sl)
    else sl) with hS2def
  have hS2 : (S2.length : Int) ≤ SA ∨
      (S2 = sl ∧ ((P ++ T2 ++ HP ++ B2 ++ TP ++ sl ++ (A1 ++ sync ++ A2) ++ (ST ++ fs)).length : Int) ≤
        MAX_PREVIEW_CHARS) := by
    rw [hS2def]
    split_ifs with h h2
    · left
      have := length_safe_truncate_md_le sl SA
      omega
    · left
      omega
    · right
      exact ⟨rfl, by omega⟩
  split_ifs with hc1
  · simp only [List.length_append, MAX_PREVIEW_CHARS] at hBA hTA hSA hB2 hT2 hS2 hc1 ⊢
    push_cast at hBA hTA hSA hB2 hT2 hS2 hc1 ⊢
    rcases hT2 with hT2 | ⟨hT2eq, hT2le⟩ <;> rcases hS2 with hS2 | ⟨hS2eq, hS2le⟩
    · omega
    · have hS2l : (S2.length : Int) = sl.length := by rw [hS2eq]
      omega
    · have hT2l : (T2.length : Int) = ts.length := by rw [hT2eq]
      omega
    · have hT2l : (T2.length : Int) = ts.length := by rw [hT2eq]
      have hS2l : (S2.length : Int) = sl.length := by rw [hS2eq]
      omega
  · simp only [List.length_append, MAX_PREVIEW_CHARS] at hc1 ⊢
    push_cast at hc1 ⊢
    omega

/-- **C2.** Both preview renderers are total Lean functions and, for every
title, body, optional publish date, slug pair and sync flag — including
empty and arbitrarily large inputs — return a string of at most
`MAX_PREVIEW_CHARS` characters. -/
theorem preview_renderers_total_and_bounded (title body : Str) (pub : Option Str)
    (current_slug suggested : Str) (slug_sync : Bool) :
    ((render_create_preview title body pub).length : Int) ≤ MAX_PREVIEW_CHARS ∧
    ((render_update_preview title body pub current_slug suggested slug_sync).length : Int) ≤
      MAX_PREVIEW_CHARS :=
  ⟨render_create_preview_length_le title body pub,
   render_update_preview_length_le title body pub current_slug suggested slug_sync⟩

/-! ### List / pagination view (`build_list_message`, `list_callback`) -/

/-- A post record from the remote API snapshot, restricted to the fields the
list view reads (`p.get("title","")`, `p.get("body","")`, `p.get("slug","")`,
`p.get("published_at")`). -/
structure PostR where
  title : Str
  body : Str
  slug : Str
  published_at : Option Str

/-- Python truthiness of an optional string (`None` and `""` are falsy). -/
def pyTruthy (v : Option Str) : Bool :=
  match v with
  | none => false
  | some s => !s.isEmpty

/-- Python `str.lower()` (per-character lowering). -/
def pyLower (s : Str) : Str := s.map Char.toLower

/-- The filtering stage of `build_list_message`: publish-status filter, then
an optional case-insensitive substring query over `title + " " + body`. -/
def filterPosts (posts : List PostR) (filter_mode : Str) (query : Option Str) : List PostR :=
  let filtered :=
    if filter_mode = "published".toList then posts.filter (fun p => pyTruthy p.published_at)
    else if filter_mode = "drafts".toList then posts.filter (fun p => !pyTruthy p.published_at)
    else posts
  match query with
  | some q =>
      if q.isEmpty then filtered
      else filtered.filter (fun p =>
        decide (pyLower q <:+: (pyLower p.title ++ " ".toList ++ pyLower p.body)))
  | none => filtered

/-- The pagination core of `build_list_message(posts, filter_mode, page,
query, ...)`.  The rendered MarkdownV2 text and inline keyboard are chat-UI
output and are not modelled; the function returns the filtered snapshot,
`total_pages`, the clamped page (`page_used` in the source's return value)
and the visible page slice. -/
def build_list_message (posts : List PostR) (filter_mode : Str) (page : Int)
    (query : Option Str) : List PostR × Nat × Int × List PostR :=
  let filtered := filterPosts posts filter_mode query
  let total := filtered.length
  let total_pages := max 1 ((total + POSTS_PAGE_SIZE - 1) / POSTS_PAGE_SIZE)
  let page_clamped := max 1 (min page (total_pages : Int))
  let start := (page_clamped - 1) * (POSTS_PAGE_SIZE : Int)
  let page_posts := (filtered.drop start.toNat).take POSTS_PAGE_SIZE
  (filtered, total_pages, page_clamped, page_posts)

/-- The list-view state dict (`K_LIST_STATE`): filter, page, query. -/
structure ListState where
  filter : Str
  page : Int
  query : Option Str

/-- The re-render tail of `list_callback`: build the list message and write
the clamped page back into the stored list state
(`state["page"] = page_used`). -/
def list_callback_render (state : ListState) (posts : List PostR) : ListState :=
  let r := build_list_message posts state.filter state.page state.query
  { state with page := r.2.2.1 }

/-- **C6.** For every post snapshot, filter mode, requested page and query:
the list view computes `total_pages = max 1 ⌈C / P⌉` over the filtered count
`C` and page size `P` (minimum 1 even when the filtered set is empty),
clamps the requested page into `[1, total_pages]`, and `list_callback`
writes the clamped page back into the list-view state. -/
theorem build_list_message_pagination (posts : List PostR) (filter_mode : Str)
    (page : Int) (query : Option Str) (state : ListState)
    (hf : state.filter = filter_mode) (hp : state.page = page) (hq : state.query = query) :
    (build_list_message posts filter_mode page query).2.1 =
      max 1 ((filterPosts posts filter_mode query).length ⌈/⌉ POSTS_PAGE_SIZE) ∧
    1 ≤ (build_list_message posts filter_mode page query).2.2.1 ∧
    (build_list_message posts filter_mode page query).2.2.1 ≤
      ((build_list_message posts filter_mode page query).2.1 : Int) ∧
    (page ≤ (build_list_message posts filter_mode page query).2.1 →
      1 ≤ page → (build_list_message posts filter_mode page query).2.2.1 = page) ∧
    (list_callback_render state posts).page =
      (build_list_message posts filter_mode page query).2.2.1 := by
  subst hf hp hq
  refine ⟨?_, ?_, ?_, ?_, rfl⟩
  · rw [Nat.ceilDiv_eq_add_pred_div]
    rfl
  · simp only [build_list_message]
    omega
  · simp only [build_list_message]
    omega
  · intro h1 h2
    simp only [build_list_message] at h1 ⊢
    omega

/-- Closed-instance witness for `build_list_message_pagination` on an empty
snapshot with the default list state. -/
theorem build_list_message_pagination_witness :
    (build_list_message [] "all".toList 1 none).2.1 =
      max 1 ((filterPosts [] "all".toList none).length ⌈/⌉ POSTS_PAGE_SIZE) ∧
    1 ≤ (build_list_message [] "all".toList 1 none).2.2.1 ∧
    (build_list_message [] "all".toList 1 none).2.2.1 ≤
      ((build_list_message [] "all".toList 1 none).2.1 : Int) ∧
    ((1 : Int) ≤ (build_list_message [] "all".toList 1 none).2.1 →
      (1 : Int) ≤ 1 → (build_list_message [] "all".toList 1 none).2.2.1 = 1) ∧
    (list_callback_render ⟨"all".toList, 1, none⟩ []).page =
      (build_list_message [] "all".toList 1 none).2.2.1 :=
  build_list_message_pagination [] "all".toList 1 none ⟨"all".toList, 1, none⟩ rfl rfl rfl

/-! ### Draft buffer (`enter_body`, `draft_undo_cb`) -/

/-- The six Python `str` whitespace characters stripped by `str.strip()`. -/
def isPySpace (c : Char) : Bool :=
  c = ' ' ∨ c = '\t' ∨ c = '\n' ∨ c = '\x0d' ∨ c = '\x0b' ∨ c = '\x0c'

/-- Python `str.strip()`: drop leading and trailing whitespace. -/
def pyStrip (s : Str) : Str :=
  ((s.dropWhile isPySpace).reverse.dropWhile isPySpace).reverse

/-- The drafting fields of a user's ephemeral context:
`context.user_data[K_BODY_PARTS]` and `context.user_data[K_UNDO_STACK]`. -/
structure DraftState where
  parts : List Str
  undo_stack : List Str
deriving DecidableEq

/-- Outcome message reported by a draft-buffer operation (which entry of
`MESSAGES` the handler replies with). -/
inductive DraftMsg where
  | addedToDraft
  | promptValidContent
  | removedLastChunk
  | nothingToUndo
deriving DecidableEq

/-- `enter_body`: strip the incoming message text; whitespace-only input
re-prompts without touching the buffer; otherwise append the stripped chunk
to both the draft parts and the undo stack. -/
def enter_body (st : DraftState) (text : Str) : DraftState × DraftMsg :=
  let t := pyStrip text
  if t.isEmpty then (st, DraftMsg.promptValidContent)
  else ({ parts := st.parts ++ [t], undo_stack := st.undo_stack ++ [t] }, DraftMsg.addedToDraft)

/-- `draft_undo_cb`: if the undo stack is non-empty, pop its last element and
pop the draft's last chunk only when it equals that element; otherwise
report "nothing to undo". -/
def draft_undo_cb (st : DraftState) : DraftState × DraftMsg :=
  match st.undo_stack.getLast? with
  | some last =>
      let undo_stack := st.undo_stack.dropLast
      let parts := if st.parts ≠ [] ∧ st.parts.getLast? = some last
        then st.parts.dropLast else st.parts
      ({ parts := parts, undo_stack := undo_stack }, DraftMsg.removedLastChunk)
  | none => (st, DraftMsg.nothingToUndo)

/-- Undoing right after an append removes exactly the appended chunk. -/
theorem draft_undo_concat (p u : List Str) (x : Str) :
    draft_undo_cb ⟨p ++ [x], u ++ [x]⟩ = (⟨p, u⟩, DraftMsg.removedLastChunk) := by
  unfold draft_undo_cb
  rw [List.getLast?_concat]
  simp [List.getLast?_concat, List.dropLast_concat]

/-- N valid appends followed by N undos restore any starting draft state. -/
theorem draft_roundtrip_aux (ts : List Str) (st : DraftState)
    (hv : ∀ t ∈ ts, (pyStrip t).isEmpty = false) :
    (fun s => (draft_undo_cb s).1)^[ts.length]
      (ts.foldl (fun s t => (enter_body s t).1) st) = st := by
  induction ts generalizing st with
  | nil => rfl
  | cons t ts ih =>
      have hvt : (pyStrip t).isEmpty = false := hv t (by simp)
      have hrest : ∀ x ∈ ts, (pyStrip x).isEmpty = false := fun x hx => hv x (by simp [hx])
      have hstep : (enter_body st t).1 =
          ⟨st.parts ++ [pyStrip t], st.undo_stack ++ [pyStrip t]⟩ := by
        unfold enter_body
        rw [if_neg (by simp [hvt])]
      simp only [List.foldl_cons, List.length_cons]
      rw [Function.iterate_succ_apply', hstep, ih _ hrest]
      show (draft_undo_cb ⟨st.parts ++ [pyStrip t], st.undo_stack ++ [pyStrip t]⟩).1 = st
      rw [draft_undo_concat]

/-- **C7.** For every initial draft-buffer state and every sequence of valid
(non-whitespace) appends followed by as many undos, the draft parts and undo
stack equal their initial state; an undo on an empty undo stack changes
nothing and reports "nothing to undo"; and an undo pops the draft's last
chunk exactly when the top of the undo stack matches the top of the draft
sequence (the undo stack itself always loses its top). -/
theorem draft_buffer_roundtrip (st : DraftState) (ts : List Str)
    (hv : ∀ t ∈ ts, (pyStrip t).isEmpty = false) :
    (fun s => (draft_undo_cb s).1)^[ts.length]
      (ts.foldl (fun s t => (enter_body s t).1) st) = st ∧
    (st.undo_stack = [] → draft_undo_cb st = (st, DraftMsg.nothingToUndo)) ∧
    (∀ last, st.undo_stack.getLast? = some last →
      (draft_undo_cb st).1.parts =
        (if st.parts ≠ [] ∧ st.parts.getLast? = some last
          then st.parts.dropLast else st.parts) ∧
      (draft_undo_cb st).1.undo_stack = st.undo_stack.dropLast) := by
  refine ⟨draft_roundtrip_aux ts st hv, ?_, ?_⟩
  · intro h
    unfold draft_undo_cb
    rw [h]
    rfl
  · intro last hlast
    unfold draft_undo_cb
    rw [hlast]
    exact ⟨rfl, rfl⟩

/-- Closed-instance witness for `draft_buffer_roundtrip`: appending the
chunk `"hi"` to the empty buffer and undoing once restores the empty
buffer. -/
theorem draft_buffer_roundtrip_witness :
    (fun s => (draft_undo_cb s).1)^[["hi".toList].length]
      (["hi".toList].foldl (fun s t => (enter_body s t).1) ⟨[], []⟩) = (⟨[], []⟩ : DraftState) ∧
    ((⟨[], []⟩ : DraftState).undo_stack = [] →
      draft_undo_cb ⟨[], []⟩ = (⟨[], []⟩, DraftMsg.nothingToUndo)) ∧
    (∀ last, (⟨[], []⟩ : DraftState).undo_stack.getLast? = some last →
      (draft_undo_cb ⟨[], []⟩).1.parts =
        (if (⟨[], []⟩ : DraftState).parts ≠ [] ∧
            (⟨[], []⟩ : DraftState).parts.getLast? = some last
          then (⟨[], []⟩ : DraftState).parts.dropLast else (⟨[], []⟩ : DraftState).parts) ∧
      (draft_undo_cb ⟨[], []⟩).1.undo_stack = (⟨[], []⟩ : DraftState).undo_stack.dropLast) :=
  draft_buffer_roundtrip ⟨[], []⟩ ["hi".toList] (by decide)

/-! ### Token registry (`_gen_token`, `token_for_slug`, `resolve_token_to_slug`)

`_gen_token` draws 40 random bits per attempt (`secrets.randbits(40)`) and
retries while the encoded token collides with an existing one.  The random
source is modelled as the list of successive `randbits(40)` draws; running
out of draws (`none`) models the never-terminating degenerate case. -/

/-- `SLUG_RE = ^[a-z0-9-]{1,128}$` applied by `is_valid_slug`. -/
def is_valid_slug (slug : Str) : Bool :=
  decide (1 ≤ slug.length) && decide (slug.length ≤ 128) &&
    slug.all (fun c => ('a' ≤ c && c ≤ 'z') || ('0' ≤ c && c ≤ '9') || c = '-')

/-- The base-36 alphabet of `_gen_token`. -/
def alphabet36 : Str := "0123456789abcdefghijklmnopqrstuvwxyz".toList

/-- Most-significant-first base-36 digits\x3a the `while n: n, r = divmod(n, 36)`
loop of `_gen_token` (empty for `n = 0`). -/
def base36Digits (n : Nat) : List Char :=
  if h : n = 0 then []
  else base36Digits (n / 36) ++ [alphabet36.getD (n % 36) '0']
decreasing_by exact Nat.div_lt_self (Nat.pos_of_ne_zero h) (by omega)

/-- One candidate token from one `randbits(40)` draw: base-36 digits,
`"0"` when empty, then cut or left-pad with `'0'` to exactly 8 characters. -/
def tokenOfNat (n : Nat) : Str :=
  let s := if (base36Digits n).isEmpty then ['0'] else base36Digits n
  if 8 ≤ s.length then s.take 8 else List.replicate (8 - s.length) '0' ++ s

/-- `_gen_token(existing)`: walk the random draws until one encodes to a
token not in `existing`. -/
def _gen_token (rand : List Nat) (existing : List Str) : Option Str :=
  match rand with
  | [] => none
  | r :: rest =>
      let token := tokenOfNat r
      if token ∈ existing then _gen_token rest existing else some token

/-- The per-user token maps of `get_token_maps`: `tokens` (token → slug) and
`rev_tokens` (slug → token), as Python dicts in insertion order. -/
structure RegState where
  t2s : List (Str × Str)
  s2t : List (Str × Str)
deriving DecidableEq

/-- Dict lookup (first matching key). -/
def lookupD (m : List (Str × Str)) (k : Str) : Option Str :=
  (m.find? (fun p => p.1 = k)).map (fun p => p.2)

/-- `token_for_slug(context, user_id, slug)`: return the existing token if
the slug is mapped; otherwise generate a fresh token and register the
bidirectional mapping.  `none` models `_gen_token` never terminating. -/
def token_for_slug (rand : List Nat) (st : RegState) (slug : Str) :
    Option (Str × RegState) :=
  match lookupD st.s2t slug with
  | some t => some (t, st)
  | none =>
      match _gen_token rand (st.t2s.map (fun p => p.1)) with
      | none => none
      | some token =>
          some (token, ⟨st.t2s ++ [(token, slug)], st.s2t ++ [(slug, token)]⟩)

/-- `resolve_token_to_slug(context, user_id, token_or_slug)`: look up by
token first; otherwise accept a valid literal slug (registering it) and
return it unchanged; otherwise `None`. -/
def resolve_token_to_slug (rand : List Nat) (st : RegState) (token_or_slug : Str) :
    Option (Option Str × RegState) :=
  match lookupD st.t2s token_or_slug with
  | some s => some (some s, st)
  | none =>
      if is_valid_slug token_or_slug then
        match token_for_slug rand st token_or_slug with
        | none => none
        | some (_, st2) => some (some token_or_slug, st2)
      else some (none, st)

/-- A token returned by `_gen_token` is never one of the existing tokens. -/
theorem _gen_token_not_mem (rand : List Nat) (existing : List Str) (t : Str)
    (h : _gen_token rand existing = some t) : t ∉ existing := by
  induction rand with
  | nil => simp [_gen_token] at h
  | cons r rest ih =>
      unfold _gen_token at h
      by_cases hmem : tokenOfNat r ∈ existing
      · rw [if_pos hmem] at h
        exact ih h
      · rw [if_neg hmem] at h
        simp only [Option.some.injEq] at h
        subst h
        exact hmem

/-- The per-user bijection invariant of the token registry: token keys are
unique, slug keys are unique, and the two maps are mutual inverses. -/
def RegBij (st : RegState) : Prop :=
  (st.t2s.map (fun p => p.1)).Nodup ∧ (st.s2t.map (fun p => p.1)).Nodup ∧
  (∀ t s, (t, s) ∈ st.t2s ↔ (s, t) ∈ st.s2t)

theorem lookupD_append (m1 m2 : List (Str × Str)) (k : Str) :
    lookupD (m1 ++ m2) k = (lookupD m1 k).or (lookupD m2 k) := by
  unfold lookupD
  rw [List.find?_append]
  cases List.find? (fun p => decide (p.1 = k)) m1 <;> simp

theorem lookupD_singleton (k v : Str) : lookupD [(k, v)] k = some v := by
  simp [lookupD]

theorem lookupD_keys_not_mem (m : List (Str × Str)) (k : Str)
    (h : k ∉ m.map (fun p => p.1)) : lookupD m k = none := by
  unfold lookupD
  rw [Option.map_eq_none', List.find?_eq_none]
  intro x hx
  simp only [decide_eq_true_eq]
  intro hk
  exact h (by simpa [← hk] using List.mem_map_of_mem (fun p => p.1) hx)

theorem lookupD_mem (m : List (Str × Str)) (k v : Str) (h : lookupD m k = some v) :
    (k, v) ∈ m := by
  unfold lookupD at h
  rw [Option.map_eq_some'] at h
  obtain ⟨p, hp, hv⟩ := h
  have hk := List.find?_some hp
  have hmem := List.mem_of_find?_eq_some hp
  simp only [decide_eq_true_eq] at hk
  obtain ⟨a, b⟩ := p
  simp only at hk hv
  subst hk hv
  exact hmem

theorem mem_lookupD_of_nodup (m : List (Str × Str)) (k v : Str)
    (hnd : (m.map (fun p => p.1)).Nodup) (h : (k, v) ∈ m) : lookupD m k = some v := by
  induction m with
  | nil => simp at h
  | cons p rest ih =>
      simp only [List.map_cons, List.nodup_cons] at hnd
      rcases List.mem_cons.mp h with heq | hrest
      · subst heq
        simp [lookupD]
      · have hne : p.1 ≠ k := by
          intro hk
          exact hnd.1 (hk ▸ List.mem_map_of_mem (fun p => p.1) hrest)
        have := ih hnd.2 hrest
        unfold lookupD at this ⊢
        rw [List.find?_cons_of_neg _ (by simpa using hne)]
        exact this

/-- `token_for_slug` on a successful call: a second call with the same slug
returns the same token and leaves the registry unchanged, and resolving the
returned token yields the original slug. -/
theorem token_for_slug_roundtrip (rand rand2 : List Nat) (st : RegState) (slug : Str)
    (hbij : RegBij st) (t : Str) (st2 : RegState)
    (h : token_for_slug rand st slug = some (t, st2)) :
    token_for_slug rand2 st2 slug = some (t, st2) ∧
    resolve_token_to_slug rand2 st2 t = some (some slug, st2) := by
  unfold token_for_slug at h
  rcases hlk : lookupD st.s2t slug with _ | t0 <;> rw [hlk] at h
  · rcases hgen : _gen_token rand (st.t2s.map (fun p => p.1)) with _ | tok <;> rw [hgen] at h
    · simp at h
    · simp only [Option.some.injEq, Prod.mk.injEq] at h
      obtain ⟨ht, hst2⟩ := h
      subst ht
      subst hst2
      have hfresh := _gen_token_not_mem _ _ _ hgen
      constructor
      · unfold token_for_slug
        rw [show lookupD (st.s2t ++ [(slug, tok)]) slug = some tok from by
          rw [lookupD_append, hlk, lookupD_singleton]
          rfl]
      · unfold resolve_token_to_slug
        rw [show lookupD (st.t2s ++ [(tok, slug)]) tok = some slug from by
          rw [lookupD_append, lookupD_keys_not_mem st.t2s tok hfresh, lookupD_singleton]
          rfl]
  · simp only [Option.some.injEq, Prod.mk.injEq] at h
    obtain ⟨ht, hst2⟩ := h
    subst ht
    subst hst2
    constructor
    · unfold token_for_slug
      rw [hlk]
    · unfold resolve_token_to_slug
      have hmem : (slug, t0) ∈ st.s2t := lookupD_mem _ _ _ hlk
      have hmem2 : (t0, slug) ∈ st.t2s := (hbij.2.2 t0 slug).mpr hmem
      rw [mem_lookupD_of_nodup st.t2s t0 slug hbij.1 hmem2]

theorem lookupD_eq_none_not_key (m : List (Str × Str)) (k : Str)
    (h : lookupD m k = none) : k ∉ m.map (fun p => p.1) := by
  intro hk
  obtain ⟨p, hp, hk1⟩ := List.mem_map.mp hk
  unfold lookupD at h
  rw [Option.map_eq_none', List.find?_eq_none] at h
  exact h p hp (by simpa using hk1)

/-- `token_for_slug` records the returned token under the slug. -/
theorem token_for_slug_registers (rand : List Nat) (st : RegState) (slug t : Str)
    (st2 : RegState) (h : token_for_slug rand st slug = some (t, st2)) :
    lookupD st2.s2t slug = some t := by
  unfold token_for_slug at h
  rcases hlk : lookupD st.s2t slug with _ | t0 <;> rw [hlk] at h
  · rcases hgen : _gen_token rand (st.t2s.map (fun p => p.1)) with _ | tok <;> rw [hgen] at h
    · simp at h
    · simp only [Option.some.injEq, Prod.mk.injEq] at h
      obtain ⟨ht, hst2⟩ := h
      subst ht
      subst hst2
      rw [lookupD_append, hlk, lookupD_singleton]
      rfl
  · simp only [Option.some.injEq, Prod.mk.injEq] at h
    obtain ⟨ht, hst2⟩ := h
    subst ht
    subst hst2
    exact hlk

/-- A successful `token_for_slug` call preserves the bijection invariant. -/
theorem regBij_token_for_slug (rand : List Nat) (st : RegState) (slug t : Str)
    (st2 : RegState) (hbij : RegBij st)
    (h : token_for_slug rand st slug = some (t, st2)) : RegBij st2 := by
  unfold token_for_slug at h
  rcases hlk : lookupD st.s2t slug with _ | t0 <;> rw [hlk] at h
  · rcases hgen : _gen_token rand (st.t2s.map (fun p => p.1)) with _ | tok <;> rw [hgen] at h
    · simp at h
    · simp only [Option.some.injEq, Prod.mk.injEq] at h
      obtain ⟨ht, hst2⟩ := h
      subst ht
      subst hst2
      have hfresh := _gen_token_not_mem _ _ _ hgen
      have habsent := lookupD_eq_none_not_key _ _ hlk
      refine ⟨?_, ?_, ?_⟩
      · simp only [List.map_append, List.map_cons, List.map_nil, List.nodup_append]
        exact ⟨hbij.1, List.nodup_singleton _, by simpa using hfresh⟩
      · simp only [List.map_append, List.map_cons, List.map_nil, List.nodup_append]
        exact ⟨hbij.2.1, List.nodup_singleton _, by simpa using habsent⟩
      · intro a b
        simp only [List.mem_append, List.mem_singleton, Prod.mk.injEq]
        constructor
        · rintro (hm | ⟨ha, hb⟩)
          · exact Or.inl ((hbij.2.2 a b).mp hm)
          · exact Or.inr ⟨hb, ha⟩
        · rintro (hm | ⟨hb, ha⟩)
          · exact Or.inl ((hbij.2.2 a b).mpr hm)
          · exact Or.inr ⟨ha, hb⟩
  · simp only [Option.some.injEq, Prod.mk.injEq] at h
    obtain ⟨ht, hst2⟩ := h
    subst ht
    subst hst2
    exact hbij

/-- A successful `resolve_token_to_slug` call preserves the bijection
invariant. -/
theorem regBij_resolve (rand : List Nat) (st : RegState) (x : Str) (r : Option Str)
    (st2 : RegState) (hbij : RegBij st)
    (h : resolve_token_to_slug rand st x = some (r, st2)) : RegBij st2 := by
  unfold resolve_token_to_slug at h
  rcases hlk : lookupD st.t2s x with _ | s <;> rw [hlk] at h
  · split_ifs at h with hvalid
    · rcases htfs : token_for_slug rand st x with _ | p <;> rw [htfs] at h
      · simp at h
      · obtain ⟨tk, st'⟩ := p
        simp only [Option.some.injEq, Prod.mk.injEq] at h
        obtain ⟨hr, hst2⟩ := h
        subst hst2
        exact regBij_token_for_slug rand st x tk st' hbij htfs
    · simp only [Option.some.injEq, Prod.mk.injEq] at h
      obtain ⟨hr, hst2⟩ := h
      subst hst2
      exact hbij
  · simp only [Option.some.injEq, Prod.mk.injEq] at h
    obtain ⟨hr, hst2⟩ := h
    subst hst2
    exact hbij

/-- One registry operation: a `token_for_slug` call or a
`resolve_token_to_slug` call (each with its own random draws). -/
inductive RegOp where
  | tfs (rand : List Nat) (slug : Str)
  | res (rand : List Nat) (x : Str)

/-- Apply one registry operation to the state (a failing generation leaves
the state unchanged). -/
def stepReg (st : RegState) (op : RegOp) : RegState :=
  match op with
  | RegOp.tfs rand slug =>
      match token_for_slug rand st slug with
      | some (_, st2) => st2
      | none => st
  | RegOp.res rand x =>
      match resolve_token_to_slug rand st x with
      | some (_, st2) => st2
      | none => st

theorem regBij_stepReg (st : RegState) (op : RegOp) (hbij : RegBij st) :
    RegBij (stepReg st op) := by
  cases op with
  | tfs rand slug =>
      rcases h : token_for_slug rand st slug with _ | ⟨t, st2⟩
      · simp only [stepReg, h]
        exact hbij
      · simp only [stepReg, h]
        exact regBij_token_for_slug rand st slug t st2 hbij h
  | res rand x =>
      rcases h : resolve_token_to_slug rand st x with _ | ⟨r, st2⟩
      · simp only [stepReg, h]
        exact hbij
      · simp only [stepReg, h]
        exact regBij_resolve rand st x r st2 hbij h

/-- **C4.** Starting from any registry satisfying the per-user bijection
invariant: a successful `token_for_slug` call returns a token such that a
second call with the same slug returns the same token and leaves the maps
unchanged; `resolve_token_to_slug` applied to the returned token yields the
original slug; the updated registry still satisfies the invariant; and the
invariant is preserved by any sequence of registry operations. -/
theorem token_registry_spec (st : RegState) (hbij : RegBij st) :
    (∀ (rand rand2 : List Nat) (slug t : Str) (st2 : RegState),
      token_for_slug rand st slug = some (t, st2) →
      token_for_slug rand2 st2 slug = some (t, st2) ∧
      resolve_token_to_slug rand2 st2 t = some (some slug, st2) ∧ RegBij st2) ∧
    (∀ ops : List RegOp, RegBij (ops.foldl stepReg st)) := by
  constructor
  · intro rand rand2 slug t st2 h
    obtain ⟨h1, h2⟩ := token_for_slug_roundtrip rand rand2 st slug hbij t st2 h
    exact ⟨h1, h2, regBij_token_for_slug rand st slug t st2 hbij h⟩
  · intro ops
    induction ops generalizing st with
    | nil => exact hbij
    | cons op rest ih => exact ih (stepReg st op) (regBij_stepReg st op hbij)

/-- Closed-instance witness for `token_registry_spec`: the empty registry
satisfies the invariant. -/
theorem token_registry_spec_witness :
    ((∀ (rand rand2 : List Nat) (slug t : Str) (st2 : RegState),
      token_for_slug rand (⟨[], []⟩ : RegState) slug = some (t, st2) →
      token_for_slug rand2 st2 slug = some (t, st2) ∧
      resolve_token_to_slug rand2 st2 t = some (some slug, st2) ∧ RegBij st2) ∧
    (∀ ops : List RegOp, RegBij (ops.foldl stepReg (⟨[], []⟩ : RegState)))) :=
  token_registry_spec ⟨[], []⟩ ⟨by simp, by simp, fun t s => by simp⟩

/-- **C5 (counterexample).** An 8-character base-36 token itself matches the
slug-validity pattern, and when it is already registered as a token,
`resolve_token_to_slug` returns the mapped slug, not the input: after
`token_for_slug` maps slug `"other"` to token `"00000001"` (random draw 1),
resolving the pattern-valid input `"00000001"` returns `"other"`. -/
theorem resolve_token_literal_slug_counterexample :
    token_for_slug [1] ⟨[], []⟩ "other".toList =
      some ("00000001".toList,
        ⟨[("00000001".toList, "other".toList)], [("other".toList, "00000001".toList)]⟩) ∧
    is_valid_slug "00000001".toList = true ∧
    resolve_token_to_slug []
      ⟨[("00000001".toList, "other".toList)], [("other".toList, "00000001".toList)]⟩
      "00000001".toList =
      some (some "other".toList,
        ⟨[("00000001".toList, "other".toList)], [("other".toList, "00000001".toList)]⟩) ∧
    ("other".toList : Str) ≠ "00000001".toList := by
  refine ⟨?_, by decide, ?_, by decide⟩
  · simp [token_for_slug, lookupD, _gen_token, tokenOfNat, base36Digits, alphabet36]
  · simp [resolve_token_to_slug, lookupD]

/-- **C5 (amended).** For every input string that matches the slug-validity
pattern and is not currently registered as a token, `resolve_token_to_slug`
returns that same string as the resolved slug and leaves it registered in
the slug → token map; when the input is a registered token, the token's
mapped slug is returned instead. -/
theorem resolve_token_literal_slug (rand : List Nat) (st : RegState) (x : Str)
    (hvalid : is_valid_slug x = true) (habsent : lookupD st.t2s x = none)
    (r : Option Str) (st2 : RegState)
    (h : resolve_token_to_slug rand st x = some (r, st2)) :
    r = some x ∧ lookupD st2.s2t x ≠ none := by
  unfold resolve_token_to_slug at h
  rw [habsent] at h
  rw [hvalid] at h
  simp only [if_true] at h
  rcases htfs : token_for_slug rand st x with _ | p <;> rw [htfs] at h
  · simp at h
  · obtain ⟨tk, st'⟩ := p
    simp only [Option.some.injEq, Prod.mk.injEq] at h
    obtain ⟨hr, hst2⟩ := h
    subst hst2
    refine ⟨hr.symm, ?_⟩
    rw [token_for_slug_registers rand st x tk st' htfs]
    simp

/-- Closed-instance witness for `resolve_token_literal_slug`: resolving the
unmapped literal slug `"post"` in the empty registry returns `"post"` and
registers it. -/
theorem resolve_token_literal_slug_witness :
    is_valid_slug "post".toList = true ∧
    lookupD (⟨[], []⟩ : RegState).t2s "post".toList = none ∧
    ∃ (r : Option Str) (st2 : RegState),
      resolve_token_to_slug [1] ⟨[], []⟩ "post".toList = some (r, st2) ∧
      r = some "post".toList ∧ lookupD st2.s2t "post".toList ≠ none := by
  refine ⟨by decide, by simp [lookupD], ?_⟩
  have heval : resolve_token_to_slug [1] ⟨[], []⟩ "post".toList =
      some (some "post".toList,
        ⟨[("00000001".toList, "post".toList)], [("post".toList, "00000001".toList)]⟩) := by
    simp [resolve_token_to_slug, token_for_slug, lookupD, _gen_token, tokenOfNat,
      base36Digits, alphabet36, is_valid_slug]
  refine ⟨_, _, heval, ?_⟩
  exact resolve_token_literal_slug [1] ⟨[], []⟩ "post".toList (by decide)
    (by simp [lookupD]) _ _ heval

/-! ### Deferred deletion scheduler
(`schedule_delete_with_undo`, `execute_delete_job`, `undo_delete_handler`)

The per-user `pending_deletes` dict maps slugs to job handles.  Job handles
are modelled as numeric ids issued by a counter; the `armed` list models the
`python-telegram-bot` job queue's contract: `run_once` arms a job,
`schedule_removal` cancels it, and a cancelled job never fires. -/

/-- Scheduler state: the per-user `pending_deletes` map, the armed jobs of
the job queue, and the id counter for newly created jobs. -/
structure SchedState where
  pending : List (Str × Nat)
  armed : List Nat
  next_job : Nat
deriving DecidableEq

/-- Dict lookup in the pending-deletes map (`pending.get(slug)`). -/
def lookupJob (m : List (Str × Nat)) (k : Str) : Option Nat :=
  (m.find? (fun p => p.1 = k)).map (fun p => p.2)

/-- Dict assignment `pending[slug] = job`: replace the entry in place if the
key exists, else append. -/
def setEntry (m : List (Str × Nat)) (k : Str) (v : Nat) : List (Str × Nat) :=
  match m with
  | [] => [(k, v)]
  | p :: rest => if p.1 = k then (k, v) :: rest else p :: setEntry rest k v

/-- Dict removal `pending.pop(slug, None)`. -/
def removeKey (m : List (Str × Nat)) (k : Str) : List (Str × Nat) :=
  m.filter (fun p => p.1 ≠ k)

/-- The scheduling core shared by `schedule_delete_with_undo` and
`schedule_delete_with_undo_message`: if a deletion is already pending for
this slug, cancel it (`existing.schedule_removal()`); arm a one-shot job
(`context.job_queue.run_once(execute_delete_job, DELETE_GRACE_SEC, ...)`)
and store it under the slug.  Returns the new state and the created job
id.  Message sending and `last_action` persistence are chat/storage
effects outside this state. -/
def schedule_delete_with_undo (st : SchedState) (slug : Str) : SchedState × Nat :=
  let existing := lookupJob st.pending slug
  let armed1 := match existing with
    | some j => st.armed.filter (fun i => i ≠ j)
    | none => st.armed
  let job := st.next_job
  let armed2 := armed1 ++ [job]
  let pending2 := setEntry st.pending slug job
  ({ pending := pending2, armed := armed2, next_job := st.next_job + 1 }, job)

/-- The job queue firing a job: only an armed (never-cancelled) job runs
`execute_delete_job`, which drops the pending entry and issues exactly one
remote DELETE call for its slug. -/
def job_queue_fire (st : SchedState) (job : Nat) (slug : Str) : SchedState × List Str :=
  if job ∈ st.armed then
    ({ st with armed := st.armed.filter (fun i => i ≠ job),
               pending := removeKey st.pending slug }, [slug])
  else (st, [])

theorem lookupJob_setEntry (m : List (Str × Nat)) (k : Str) (v : Nat) :
    lookupJob (setEntry m k v) k = some v := by
  induction m with
  | nil => simp [setEntry, lookupJob]
  | cons p rest ih =>
      by_cases h : p.1 = k
      · simp [setEntry, h, lookupJob]
      · simp only [setEntry, if_neg h]
        unfold lookupJob at ih ⊢
        rw [List.find?_cons_of_neg _ (by simpa using h)]
        exact ih

theorem mem_keys_setEntry (m : List (Str × Nat)) (k : Str) (v : Nat) (a : Str)
    (h : a ∈ (setEntry m k v).map (fun p => p.1)) :
    a ∈ m.map (fun p => p.1) ∨ a = k := by
  induction m with
  | nil => simpa [setEntry] using h
  | cons p rest ih =>
      by_cases hp : p.1 = k
      · simp only [setEntry, if_pos hp, List.map_cons, List.mem_cons] at h
        rcases h with h | h
        · exact Or.inr h
        · exact Or.inl (by simp [h])
      · simp only [setEntry, if_neg hp, List.map_cons, List.mem_cons] at h
        rcases h with h | h
        · exact Or.inl (by simp [h])
        · rcases ih h with h2 | h2
          · exact Or.inl (by simp [h2])
          · exact Or.inr h2

theorem nodup_keys_setEntry (m : List (Str × Nat)) (k : Str) (v : Nat)
    (hnd : (m.map (fun p => p.1)).Nodup) :
    ((setEntry m k v).map (fun p => p.1)).Nodup := by
  induction m with
  | nil => simp [setEntry]
  | cons p rest ih =>
      simp only [List.map_cons, List.nodup_cons] at hnd
      by_cases hp : p.1 = k
      · simp only [setEntry, if_pos hp, List.map_cons, List.nodup_cons]
        exact ⟨by rw [← hp]; exact hnd.1, hnd.2⟩
      · simp only [setEntry, if_neg hp, List.map_cons, List.nodup_cons]
        refine ⟨fun hmem => ?_, ih hnd.2⟩
        rcases mem_keys_setEntry rest k v p.1 hmem with h2 | h2
        · exact hnd.1 h2
        · exact hp h2

theorem filter_key_eq_nil (m : List (Str × Nat)) (k : Str)
    (h : k ∉ m.map (fun p => p.1)) : m.filter (fun p => decide (p.1 = k)) = [] := by
  induction m with
  | nil => rfl
  | cons p rest ih =>
      simp only [List.map_cons, List.mem_cons, not_or] at h
      simp only [List.filter_cons]
      rw [if_neg (by simpa using fun hk => h.1 hk.symm)]
      exact ih h.2

theorem filter_key_setEntry_of_nodup (m : List (Str × Nat)) (k : Str) (v : Nat)
    (hnd : (m.map (fun p => p.1)).Nodup) :
    ((setEntry m k v).filter (fun p => decide (p.1 = k))).length = 1 := by
  induction m with
  | nil => simp [setEntry]
  | cons p rest ih =>
      simp only [List.map_cons, List.nodup_cons] at hnd
      by_cases hp : p.1 = k
      · simp only [setEntry, if_pos hp, List.filter_cons]
        rw [if_pos (by simp)]
        rw [filter_key_eq_nil rest k (by rw [← hp]; exact hnd.1)]
        rfl
      · simp only [setEntry, if_neg hp, List.filter_cons]
        rw [if_neg (by simpa using hp)]
        exact ih hnd.2

/-- **C8.** Starting from any scheduler state whose pending map has unique
slugs: scheduling a deletion for the same slug twice leaves exactly one
pending entry for that slug, holding the latest job; the first job has been
cancelled (it is no longer armed and will never fire), the latest job is
armed, and the pending map still has unique slugs. -/
theorem schedule_delete_replaces (st : SchedState) (slug : Str)
    (hnd : (st.pending.map (fun p => p.1)).Nodup) :
    ((schedule_delete_with_undo (schedule_delete_with_undo st slug).1 slug).1.pending.filter
        (fun p => decide (p.1 = slug))).length = 1 ∧
    lookupJob (schedule_delete_with_undo (schedule_delete_with_undo st slug).1 slug).1.pending
        slug =
      some (schedule_delete_with_undo (schedule_delete_with_undo st slug).1 slug).2 ∧
    (schedule_delete_with_undo (schedule_delete_with_undo st slug).1 slug).2 ≠
      (schedule_delete_with_undo st slug).2 ∧
    (schedule_delete_with_undo st slug).2 ∉
      (schedule_delete_with_undo (schedule_delete_with_undo st slug).1 slug).1.armed ∧
    (job_queue_fire (schedule_delete_with_undo (schedule_delete_with_undo st slug).1 slug).1
        (schedule_delete_with_undo st slug).2 slug).2 = [] ∧
    (schedule_delete_with_undo (schedule_delete_with_undo st slug).1 slug).2 ∈
      (schedule_delete_with_undo (schedule_delete_with_undo st slug).1 slug).1.armed ∧
    ((schedule_delete_with_undo (schedule_delete_with_undo st slug).1 slug).1.pending.map
        (fun p => p.1)).Nodup := by
  have hnd1 : ((schedule_delete_with_undo st slug).1.pending.map (fun p => p.1)).Nodup := by
    simp only [schedule_delete_with_undo]
    exact nodup_keys_setEntry st.pending slug st.next_job hnd
  have hlk1 : lookupJob (schedule_delete_with_undo st slug).1.pending slug =
      some st.next_job := by
    simp only [schedule_delete_with_undo]
    exact lookupJob_setEntry st.pending slug st.next_job
  have hjob1 : (schedule_delete_with_undo st slug).2 = st.next_job := rfl
  have hnext1 : (schedule_delete_with_undo st slug).1.next_job = st.next_job + 1 := rfl
  have hnotmem : st.next_job ∉
      (schedule_delete_with_undo (schedule_delete_with_undo st slug).1 slug).1.armed := by
    simp only [schedule_delete_with_undo, lookupJob_setEntry]
    simp only [List.mem_append, List.mem_filter, List.mem_singleton]
    rintro (⟨_, hne⟩ | habs)
    · simp at hne
    · omega
  refine ⟨?_, ?_, ?_, ?_, ?_, ?_, ?_⟩
  · simp only [schedule_delete_with_undo]
    exact filter_key_setEntry_of_nodup _ slug _ hnd1
  · simp only [schedule_delete_with_undo]
    exact lookupJob_setEntry _ slug _
  · simp only [schedule_delete_with_undo]
    omega
  · rw [hjob1]
    exact hnotmem
  · unfold job_queue_fire
    rw [if_neg (by rw [hjob1]; exact hnotmem)]
  · simp only [schedule_delete_with_undo]
    simp
  · simp only [schedule_delete_with_undo]
    exact nodup_keys_setEntry _ slug _ hnd1

/-- Closed-instance witness for `schedule_delete_replaces`: scheduling the
slug `"my-post"` twice from the empty scheduler state. -/
theorem schedule_delete_replaces_witness :
    ((schedule_delete_with_undo (schedule_delete_with_undo ⟨[], [], 0⟩ "my-post".toList).1
        "my-post".toList).1.pending.filter
        (fun p => decide (p.1 = "my-post".toList))).length = 1 ∧
    lookupJob (schedule_delete_with_undo (schedule_delete_with_undo ⟨[], [], 0⟩
          "my-post".toList).1 "my-post".toList).1.pending "my-post".toList =
      some (schedule_delete_with_undo (schedule_delete_with_undo ⟨[], [], 0⟩
          "my-post".toList).1 "my-post".toList).2 ∧
    (schedule_delete_with_undo (schedule_delete_with_undo ⟨[], [], 0⟩ "my-post".toList).1
        "my-post".toList).2 ≠
      (schedule_delete_with_undo ⟨[], [], 0⟩ "my-post".toList).2 ∧
    (schedule_delete_with_undo ⟨[], [], 0⟩ "my-post".toList).2 ∉
      (schedule_delete_with_undo (schedule_delete_with_undo ⟨[], [], 0⟩ "my-post".toList).1
        "my-post".toList).1.armed ∧
    (job_queue_fire (schedule_delete_with_undo (schedule_delete_with_undo ⟨[], [], 0⟩
          "my-post".toList).1 "my-post".toList).1
        (schedule_delete_with_undo ⟨[], [], 0⟩ "my-post".toList).2 "my-post".toList).2 = [] ∧
    (schedule_delete_with_undo (schedule_delete_with_undo ⟨[], [], 0⟩ "my-post".toList).1
        "my-post".toList).2 ∈
      (schedule_delete_with_undo (schedule_delete_with_undo ⟨[], [], 0⟩ "my-post".toList).1
        "my-post".toList).1.armed ∧
    ((schedule_delete_with_undo (schedule_delete_with_undo ⟨[], [], 0⟩ "my-post".toList).1
        "my-post".toList).1.pending.map (fun p => p.1)).Nodup :=
  schedule_delete_replaces ⟨[], [], 0⟩ "my-post".toList (by simp)

/-- Which message `undo_delete_handler` shows by editing the callback
message: `UNDO_DELETE_CANCELLED` or `TOO_LATE_UNDO`. -/
inductive UndoDeleteMsg where
  | cancelled (slug : Str)
  | tooLate
deriving DecidableEq

/-- `undo_delete_handler`: resolve the callback token to a slug (falsy
results report "too late"); if a pending, still-enabled job exists for the
slug, cancel it, drop the pending entry and report cancellation; otherwise
drop any stale entry and report "too late".  The final component is the
list of remote DELETE calls issued by the handler itself (always none).
`none` models a non-terminating token generation inside the resolver. -/
def undo_delete_handler (rand : List Nat) (reg : RegState) (st : SchedState) (tok : Str) :
    Option (RegState × SchedState × UndoDeleteMsg × List Str) :=
  match resolve_token_to_slug rand reg tok with
  | none => none
  | some (slugOpt, reg2) =>
      match slugOpt with
      | none => some (reg2, st, UndoDeleteMsg.tooLate, [])
      | some slug =>
          if slug.isEmpty then some (reg2, st, UndoDeleteMsg.tooLate, [])
          else
            match lookupJob st.pending slug with
            | some job =>
                if job ∈ st.armed then
                  some (reg2,
                    { st with armed := st.armed.filter (fun i => i ≠ job),
                              pending := removeKey st.pending slug },
                    UndoDeleteMsg.cancelled slug, [])
                else
                  some (reg2, { st with pending := removeKey st.pending slug },
                    UndoDeleteMsg.tooLate, [])
            | none =>
                some (reg2, { st with pending := removeKey st.pending slug },
                  UndoDeleteMsg.tooLate, [])

theorem lookupJob_removeKey (m : List (Str × Nat)) (k : Str) :
    lookupJob (removeKey m k) k = none := by
  unfold lookupJob removeKey
  rw [Option.map_eq_none', List.find?_eq_none]
  intro p hp
  have := (List.mem_filter.mp hp).2
  simpa using this

/-- **C9.** Whenever `undo_delete_handler` runs, it issues zero remote
DELETE calls itself; when the resolved slug still has a pending, enabled
job, the job is cancelled (it is disarmed, so firing it later produces no
DELETE call), the pending entry is removed, and a cancellation message is
shown; when the token does not resolve, or no pending job exists, or the
job is already disabled, it reports "too late" — never a cancellation. -/
theorem undo_delete_handler_spec (rand : List Nat) (reg : RegState) (st : SchedState)
    (tok : Str) (reg2 : RegState) (st2 : SchedState) (msg : UndoDeleteMsg)
    (calls : List Str)
    (h : undo_delete_handler rand reg st tok = some (reg2, st2, msg, calls)) :
    calls = [] ∧
    (∀ reg' , resolve_token_to_slug rand reg tok = some (none, reg') →
      msg = UndoDeleteMsg.tooLate ∧ st2 = st) ∧
    (∀ slug reg', resolve_token_to_slug rand reg tok = some (some slug, reg') →
      slug.isEmpty = false →
      (∀ job, lookupJob st.pending slug = some job → job ∈ st.armed →
        msg = UndoDeleteMsg.cancelled slug ∧ job ∉ st2.armed ∧
        lookupJob st2.pending slug = none ∧ (job_queue_fire st2 job slug).2 = []) ∧
      (lookupJob st.pending slug = none → msg = UndoDeleteMsg.tooLate) ∧
      (∀ job, lookupJob st.pending slug = some job → job ∉ st.armed →
        msg = UndoDeleteMsg.tooLate)) := by
  unfold undo_delete_handler at h
  rcases hres : resolve_token_to_slug rand reg tok with _ | ⟨slugOpt, regA⟩ <;> rw [hres] at h
  · simp at h
  · rcases slugOpt with _ | slug
    · simp only [Option.some.injEq, Prod.mk.injEq] at h
      obtain ⟨h1, h2, h3, h4⟩ := h
      refine ⟨h4.symm, ?_, ?_⟩
      · intro reg' hr
        exact ⟨h3.symm, h2.symm⟩
      · intro slug reg' hr
        simp at hr
    · dsimp only at h
      by_cases hempty : slug.isEmpty
      · rw [if_pos hempty] at h
        simp only [Option.some.injEq, Prod.mk.injEq] at h
        obtain ⟨h1, h2, h3, h4⟩ := h
        refine ⟨h4.symm, ?_, ?_⟩
        · intro reg' hr
          simp at hr
        · intro slug' reg' hr hne
          simp only [Option.some.injEq, Prod.mk.injEq] at hr
          rw [← hr.1] at hne
          rw [hempty] at hne
          simp at hne
      · rw [if_neg hempty] at h
        rcases hlk : lookupJob st.pending slug with _ | job <;> rw [hlk] at h
        · simp only [Option.some.injEq, Prod.mk.injEq] at h
          obtain ⟨h1, h2, h3, h4⟩ := h
          refine ⟨h4.symm, ?_, ?_⟩
          · intro reg' hr
            simp at hr
          · intro slug' reg' hr hne
            simp only [Option.some.injEq, Prod.mk.injEq] at hr
            rw [← hr.1]
            refine ⟨?_, ?_, ?_⟩
            · intro job hjob hjarm
              rw [hlk] at hjob
              simp at hjob
            · intro hnone
              exact h3.symm
            · intro job hjob hjarm
              rw [hlk] at hjob
              simp at hjob
        · dsimp only at h
          by_cases harm : job ∈ st.armed
          · rw [if_pos harm] at h
            simp only [Option.some.injEq, Prod.mk.injEq] at h
            obtain ⟨h1, h2, h3, h4⟩ := h
            refine ⟨h4.symm, ?_, ?_⟩
            · intro reg' hr
              simp at hr
            · intro slug' reg' hr hne
              simp only [Option.some.injEq, Prod.mk.injEq] at hr
              rw [← hr.1]
              refine ⟨?_, ?_, ?_⟩
              · intro job' hjob hjarm
                rw [hlk] at hjob
                simp only [Option.some.injEq] at hjob
                subst hjob
                have hnotarm : job ∉ st2.armed := by
                  rw [← h2]
                  simp only [List.mem_filter]
                  rintro ⟨_, hc⟩
                  simp at hc
                refine ⟨h3.symm, hnotarm, ?_, ?_⟩
                · rw [← h2]
                  exact lookupJob_removeKey st.pending slug
                · unfold job_queue_fire
                  rw [if_neg hnotarm]
              · intro hnone
                rw [hlk] at hnone
                simp at hnone
              · intro job' hjob hjarm
                rw [hlk] at hjob
                simp only [Option.some.injEq] at hjob
                subst hjob
                exact absurd harm hjarm
          · rw [if_neg harm] at h
            simp only [Option.some.injEq, Prod.mk.injEq] at h
            obtain ⟨h1, h2, h3, h4⟩ := h
            refine ⟨h4.symm, ?_, ?_⟩
            · intro reg' hr
              simp at hr
            · intro slug' reg' hr hne
              simp only [Option.some.injEq, Prod.mk.injEq] at hr
              rw [← hr.1]
              refine ⟨?_, ?_, ?_⟩
              · intro job' hjob hjarm
                rw [hlk] at hjob
                simp only [Option.some.injEq] at hjob
                subst hjob
                exact absurd hjarm harm
              · intro hnone
                exact h3.symm
              · intro job' hjob hjarm
                exact h3.symm

/-- Closed-instance witness for `undo_delete_handler_spec`: undoing a
pending deletion of `"my-post"` through its token cancels the armed job. -/
theorem undo_delete_handler_spec_witness :
    ([] : List Str) = [] ∧
    (∀ reg', resolve_token_to_slug []
        ⟨[("00000001".toList, "my-post".toList)], [("my-post".toList, "00000001".toList)]⟩
        "00000001".toList = some (none, reg') →
      UndoDeleteMsg.cancelled "my-post".toList = UndoDeleteMsg.tooLate ∧
      (⟨[], [], 1⟩ : SchedState) = ⟨[("my-post".toList, 0)], [0], 1⟩) ∧
    (∀ slug reg', resolve_token_to_slug []
        ⟨[("00000001".toList, "my-post".toList)], [("my-post".toList, "00000001".toList)]⟩
        "00000001".toList = some (some slug, reg') →
      slug.isEmpty = false →
      (∀ job, lookupJob [("my-post".toList, 0)] slug = some job → job ∈ [0] →
        UndoDeleteMsg.cancelled "my-post".toList = UndoDeleteMsg.cancelled slug ∧
        job ∉ (⟨[], [], 1⟩ : SchedState).armed ∧
        lookupJob (⟨[], [], 1⟩ : SchedState).pending slug = none ∧
        (job_queue_fire ⟨[], [], 1⟩ job slug).2 = []) ∧
      (lookupJob [("my-post".toList, 0)] slug = none →
        UndoDeleteMsg.cancelled "my-post".toList = UndoDeleteMsg.tooLate) ∧
      (∀ job, lookupJob [("my-post".toList, 0)] slug = some job → job ∉ [0] →
        UndoDeleteMsg.cancelled "my-post".toList = UndoDeleteMsg.tooLate)) :=
  undo_delete_handler_spec []
    ⟨[("00000001".toList, "my-post".toList)], [("my-post".toList, "00000001".toList)]⟩
    ⟨[("my-post".toList, 0)], [0], 1⟩ "00000001".toList
    ⟨[("00000001".toList, "my-post".toList)], [("my-post".toList, "00000001".toList)]⟩
    ⟨[], [], 1⟩ (UndoDeleteMsg.cancelled "my-post".toList) []
    (by simp [undo_delete_handler, resolve_token_to_slug, lookupD, lookupJob, removeKey])

/-! ### Retry/replay cache (`_submit_create_post`, `retry_handler`, create branch)

`last_action` for a create is the dict `{"type": "create", "payload":
{"title": ..., "body": ..., "published_at": ...}}`.  Dict keys may be
absent (`Option`), and a present value may itself be Python `None`
(the inner `Option`). -/

/-- The `payload` dict of a stored create action: each field is `some v`
when the key is present (where `v` is the stored value, itself `none` for
Python `None`). -/
structure PayloadDict where
  title : Option (Option Str)
  body : Option (Option Str)
  published_at : Option (Option Str)
deriving DecidableEq

/-- The create-flow fields of `context.user_data`: `K_TITLE`, `K_BODY`,
`K_PUBLISHED_AT`.  The outer `Option` is key presence, the inner is the
stored value (`None` possible). -/
structure CtxData where
  title : Option (Option Str)
  body : Option (Option Str)
  published_at : Option (Option Str)
deriving DecidableEq

/-- `context.user_data.get(key)`: the stored value, or `None` when the key
is absent. -/
def ctxGet (v : Option (Option Str)) : Option Str := v.getD none

/-- The outbound payload of one `api_call("POST", ...)` — the create-post
JSON body `{"title": ..., "body": ..., "published_at": ...}`. -/
structure CreatePayload where
  title : Option Str
  body : Option Str
  published_at : Option Str
deriving DecidableEq

/-- `_submit_create_post`: build the payload from the context fields
(`K_TITLE` and `K_BODY` by subscript — `none` models the `KeyError` on a
missing key — and `K_PUBLISHED_AT` by `.get`), persist it as
`last_action = {"type": "create", "payload": payload}` (the first
component), and issue exactly one POST `api_call` with it (the second
component). -/
def _submit_create_post (ctx : CtxData) : Option (CreatePayload × List CreatePayload) :=
  match ctx.title, ctx.body with
  | some t, some b =>
      let payload : CreatePayload := ⟨t, b, ctxGet ctx.published_at⟩
      some (payload, [payload])
  | _, _ => none

/-- The `t == "create"` branch of `retry_handler`: re-derive the in-flight
context fields from the stored payload (falling back to the current context
value when a key is absent) and re-invoke `_submit_create_post`. -/
def retry_handler_create (last_payload : PayloadDict) (ctx : CtxData) :
    CtxData × Option (CreatePayload × List CreatePayload) :=
  let ctx2 : CtxData :=
    { title := some (last_payload.title.getD (ctxGet ctx.title))
      body := some (last_payload.body.getD (ctxGet ctx.body))
      published_at := some (last_payload.published_at.getD (ctxGet ctx.published_at)) }
  (ctx2, _submit_create_post ctx2)

/-- **C1.** For every stored failed create with payload
`{title: T, body: B, published_at: P}` and every prior context state,
activating retry issues exactly one create call whose outbound payload is
exactly `{title: T, body: B, published_at: P}` — independent of the
current context, so nothing is re-prompted or re-validated. -/
theorem retry_create_exact_replay (T B : Str) (P : Option Str) (ctx : CtxData) :
    (retry_handler_create ⟨some (some T), some (some B), some P⟩ ctx).2 =
      some (⟨some T, some B, P⟩, [⟨some T, some B, P⟩]) := rfl
